import Mathlib

set_option maxRecDepth 100000

/-! Verification of the log-parsing and metadata-aggregation core of the
`async-ffmpeg-sidecar` crate.  Rust strings are modelled as `List Char`;
`f32`/`f64` values are modelled as exact rationals (`ℚ`); `u32`/`usize` as
`ℕ`, with the `u32` range enforced at parse time.  Fallible Rust code
returns `Option` or an explicit result type. -/

/-! ### String primitives (Rust `str` methods over `List Char`) -/

/-- Rust `str::trim`: drop leading and trailing whitespace. -/
def trimCl (s : List Char) : List Char :=
  ((s.dropWhile Char.isWhitespace).reverse.dropWhile Char.isWhitespace).reverse

/-- Rust `str::strip_prefix`: remove `pat` from the front of the string when
it is a prefix, else `none`. -/
def stripPre : List Char → List Char → Option (List Char)
  | [], s => some s
  | _ :: _, [] => none
  | p :: ps, c :: cs => if p = c then stripPre ps cs else none

/-- Rust `str::strip_suffix`. -/
def stripSuf (pat s : List Char) : Option (List Char) :=
  (stripPre pat.reverse s.reverse).map List.reverse

/-- Rust `str::ends_with`. -/
def endsWithCl (pat s : List Char) : Bool := (stripSuf pat s).isSome

/-- Split `s` at the first occurrence of the substring `pat`, returning the
text before and after it; `none` when `pat` does not occur in `s`. -/
def breakSub (pat : List Char) : List Char → Option (List Char × List Char)
  | [] => match stripPre pat [] with
    | some r => some ([], r)
    | none => none
  | c :: cs => match stripPre pat (c :: cs) with
    | some r => some ([], r)
    | none => match breakSub pat cs with
      | some (b, a) => some (c :: b, a)
      | none => none

/-- Rust `str::contains` for a substring pattern. -/
def containsSub (s pat : List Char) : Bool := (breakSub pat s).isSome

/-- Rust `str::split` on a substring pattern (splits at every occurrence,
keeping empty segments), with explicit fuel; `fuel ≥ s.length + 1` is always
enough for a nonempty pattern. -/
def splitSubFuel (pat : List Char) : ℕ → List Char → List (List Char)
  | 0, s => [s]
  | fuel + 1, s => match breakSub pat s with
    | none => [s]
    | some (b, a) => b :: splitSubFuel pat fuel a

/-- Rust `str::split` on a substring pattern. -/
def splitSub (s pat : List Char) : List (List Char) :=
  splitSubFuel pat (s.length + 1) s

/-- Rust `str::replace(pat, "")`: drop every occurrence of `pat`. -/
def dropAllSub (s pat : List Char) : List Char := (splitSub s pat).flatten

/-- Rust `str::split` on a character set given as a predicate (keeps empty
segments, as Rust does). -/
def splitCh (p : Char → Bool) : List Char → List (List Char)
  | [] => [[]]
  | c :: cs =>
    if p c then [] :: splitCh p cs
    else match splitCh p cs with
      | [] => [[c]]
      | h :: t => (c :: h) :: t

/-- Rust `str::split_whitespace` (yields no empty tokens). -/
def splitWs (s : List Char) : List (List Char) :=
  (splitCh Char.isWhitespace s).filter (· ≠ [])

/-- Rust `str::trim_end_matches` for a single character: drop every trailing
occurrence of `ch`. -/
def dropTrailing (ch : Char) (s : List Char) : List Char :=
  (s.reverse.dropWhile (· = ch)).reverse

/-! ### Number parsing -/

/-- Numeric value of a decimal digit. -/
def digitVal (c : Char) : ℕ := c.toNat - 48

/-- Numeric value of a digit string. -/
def natOfDigits (s : List Char) : ℕ :=
  s.foldl (fun acc c => acc * 10 + digitVal c) 0

/-- Rust `str::parse::<u32>`: optional `+` sign, then one or more digits,
rejecting values outside the `u32` range. -/
def parseU32 (s : List Char) : Option ℕ :=
  let digits := match s with
    | '+' :: rest => rest
    | other => other
  if digits ≠ [] ∧ digits.all Char.isDigit ∧ natOfDigits digits < 2 ^ 32 then
    some (natOfDigits digits)
  else none

/-- Fractional value of a digit string read after the decimal point. -/
def fracOfDigits (s : List Char) : ℚ :=
  s.foldr (fun c acc => ((digitVal c : ℚ) + acc) / 10) 0

/-- Rust `str::parse::<f64>` / `::<f32>` on an unsigned decimal literal:
digits with an optional fractional part (`1`, `1.`, `.5`, …).  The value is
kept as an exact rational; special forms (`inf`, `NaN`, exponents) that
never occur in the log fields under study are not modelled. -/
def parseUnsignedDec (s : List Char) : Option ℚ :=
  let intPart := s.takeWhile Char.isDigit
  let rest := s.dropWhile Char.isDigit
  match rest with
  | [] => if intPart = [] then none else some (natOfDigits intPart)
  | '.' :: fracPart =>
    if fracPart.all Char.isDigit ∧ (intPart ≠ [] ∨ fracPart ≠ []) then
      some ((natOfDigits intPart : ℚ) + fracOfDigits fracPart)
    else none
  | _ => none

/-- Rust `str::parse::<f64>` / `::<f32>`: optional sign, then an unsigned
decimal literal. -/
def parseDec : List Char → Option ℚ
  | '-' :: rest => (parseUnsignedDec rest).map (fun q => -q)
  | '+' :: rest => parseUnsignedDec rest
  | s => parseUnsignedDec s

/-! ### Event data model

The event payload types live in `event.rs`, which is not among the provided
source files; their shapes are modelled from the spec (§3 data model) and are
pinned down by how `log_parser.rs`, `metadata.rs` and `stream.rs` construct
and consume them. -/

/-- Modelled from the spec: severity levels of a generic log event
(`event.rs` is not under `src/`; §4.2 generic fallback lists
info/warning/error/fatal plus an Unknown level). -/
inductive LogLevel
  | Info
  | Warning
  | Error
  | Fatal
  | Unknown
deriving DecidableEq, Repr

/-- Modelled from the spec: input descriptor — index, optional duration in
seconds, raw text (§3). -/
structure FfmpegInput where
  index : ℕ
  duration : Option ℚ
  raw_log_message : List Char
deriving DecidableEq, Repr

/-- Modelled from the spec: output descriptor — index, destination string,
raw text (§3).  The destination field is named `to` in Rust; `to` is a
reserved word in Lean, so it is called `dest` here. -/
structure FfmpegOutput where
  index : ℕ
  dest : List Char
  raw_log_message : List Char
deriving DecidableEq, Repr

/-- Modelled from the spec: a Duration event referencing an input index
(§3, §4.6). -/
structure FfmpegDuration where
  input_index : ℕ
  duration : ℚ
  raw_log_message : List Char
deriving DecidableEq, Repr

/-- Modelled from the spec: video payload of a stream descriptor (§3). -/
structure VideoStream where
  pix_fmt : List Char
  width : ℕ
  height : ℕ
  fps : ℚ
deriving DecidableEq, Repr

/-- Modelled from the spec: audio payload of a stream descriptor (§3). -/
structure AudioStream where
  sample_rate : ℕ
  channels : List Char
deriving DecidableEq, Repr

/-- Modelled from the spec: type-specific payload of a stream descriptor
(§3): Video, Audio, Subtitle or Other. -/
inductive StreamTypeSpecificData
  | Video (v : VideoStream)
  | Audio (a : AudioStream)
  | Subtitle
  | Other
deriving DecidableEq, Repr

/-- Modelled from the spec: stream descriptor (§3). -/
structure FfmpegStream where
  format : List Char
  language : List Char
  parent_index : ℕ
  stream_index : ℕ
  raw_log_message : List Char
  type_specific_data : StreamTypeSpecificData
deriving DecidableEq, Repr

/-- Modelled from the spec: progress snapshot (§3); the time field is kept
verbatim as text. -/
structure FfmpegProgress where
  frame : ℕ
  fps : ℚ
  q : ℚ
  size_kb : ℕ
  time : List Char
  bitrate_kbps : ℚ
  speed : ℚ
  raw_log_message : List Char
deriving DecidableEq, Repr

/-- Modelled from the spec: version event payload. -/
structure FfmpegVersion where
  version : List Char
  raw_log_message : List Char
deriving DecidableEq, Repr

/-- Modelled from the spec: configuration event payload (list of build
flags). -/
structure FfmpegConfiguration where
  configuration : List (List Char)
  raw_log_message : List Char
deriving DecidableEq, Repr

/-- Modelled from the spec: the Event tagged union (§3), with the variant
names used throughout `log_parser.rs`, `metadata.rs` and `stream.rs`. -/
inductive FfmpegEvent
  | ParsedVersion (v : FfmpegVersion)
  | ParsedConfiguration (c : FfmpegConfiguration)
  | ParsedStreamMapping (t : List Char)
  | ParsedInput (i : FfmpegInput)
  | ParsedOutput (o : FfmpegOutput)
  | ParsedDuration (d : FfmpegDuration)
  | ParsedInputStream (s : FfmpegStream)
  | ParsedOutputStream (s : FfmpegStream)
  | Progress (p : FfmpegProgress)
  | Log (level : LogLevel) (text : List Char)
  | Error (text : List Char)
  | LogEOF
deriving DecidableEq, Repr

/-! ### Metadata aggregator (`metadata.rs`) -/

/-- The metadata aggregate of `metadata.rs`. -/
structure FfmpegMetadata where
  expected_output_streams : ℕ
  outputs : List FfmpegOutput
  output_streams : List FfmpegStream
  inputs : List FfmpegInput
  input_streams : List FfmpegStream
  completed : Bool
deriving DecidableEq, Repr

/-- `FfmpegMetadata::new` (also `Default::default`). -/
def FfmpegMetadata.new : FfmpegMetadata :=
  { expected_output_streams := 0
    outputs := []
    output_streams := []
    inputs := []
    input_streams := []
    completed := false }

/-- `FfmpegMetadata::is_completed`. -/
def FfmpegMetadata.is_completed (m : FfmpegMetadata) : Bool := m.completed

/-- `FfmpegMetadata::duration`, which reads `self.inputs[0].duration`
unconditionally.  The outer `Option` models the indexing panic: `none` is
the out-of-bounds panic on an empty `inputs` vector, `some d` is the value
`d : Option ℚ` returned when a first input exists. -/
def FfmpegMetadata.duration (m : FfmpegMetadata) : Option (Option ℚ) :=
  match m.inputs with
  | [] => none
  | i :: _ => some i.duration

/-- Vec index-assignment `inputs[idx].duration = Some(d)` (callers check the
bound; out of bounds is handled by the caller as a panic). -/
def setDurationAt : List FfmpegInput → ℕ → ℚ → List FfmpegInput
  | [], _, _ => []
  | i :: is, 0, d => { i with duration := some d } :: is
  | i :: is, n + 1, d => i :: setDurationAt is n d

/-- Outcome of `FfmpegMetadata::handle_event`: `ok` is `Ok(())` together
with the updated aggregate (the Rust method mutates `&mut self`); `err` is
`bail!` returning `Err` to the caller; `outOfBounds` is the vector-indexing
panic, which unwinds instead of returning. -/
inductive HandleResult
  | ok (m : FfmpegMetadata)
  | err (msg : List Char)
  | outOfBounds
deriving DecidableEq, Repr

/-- `FfmpegMetadata::handle_event` (metadata.rs lines 49–74).  The
completion flag is only ever set, and the method is entered with it false,
so the final conditional assignment is modelled as setting the flag to the
value of the completion predicate. -/
def handle_event (m : FfmpegMetadata) (item : FfmpegEvent) : HandleResult :=
  if m.is_completed then .err "Metadata is already completed".data
  else
    let step : Option FfmpegMetadata :=
      match item with
      | .ParsedStreamMapping _ =>
        some { m with expected_output_streams := m.expected_output_streams + 1 }
      | .ParsedInput input => some { m with inputs := m.inputs ++ [input] }
      | .ParsedOutput output => some { m with outputs := m.outputs ++ [output] }
      | .ParsedDuration duration =>
        if duration.input_index < m.inputs.length then
          some { m with inputs := setDurationAt m.inputs duration.input_index duration.duration }
        else none
      | .ParsedOutputStream s => some { m with output_streams := m.output_streams ++ [s] }
      | .ParsedInputStream s => some { m with input_streams := m.input_streams ++ [s] }
      | _ => some m
    match step with
    | none => .outOfBounds
    | some m' =>
      .ok { m' with
              completed := decide (0 < m'.expected_output_streams ∧
                m'.output_streams.length = m'.expected_output_streams) }

/-- Folding a list of events through `handle_event`, stopping at the first
failure (each `?`-propagated call in Rust). -/
def feedEvents (m : FfmpegMetadata) : List FfmpegEvent → HandleResult
  | [] => .ok m
  | e :: es =>
    match handle_event m e with
    | .ok m' => feedEvents m' es
    | r => r

/-! ### Field extractors (`log_parser.rs`) -/

/-- The preamble `string.strip_prefix("[info]").unwrap_or(string).trim()`
shared by all extractors. -/
def stripTag (s : List Char) : List Char :=
  trimCl ((stripPre "[info]".data s).getD s)

/-- `try_parse_version` (log_parser.rs lines 129–138). -/
def try_parse_version (s : List Char) : Option (List Char) := do
  let rest ← stripPre "ffmpeg version ".data (stripTag s)
  (splitWs rest)[0]?

/-- `try_parse_configuration` (log_parser.rs lines 159–166). -/
def try_parse_configuration (s : List Char) : Option (List (List Char)) :=
  (stripPre "configuration: ".data (stripTag s)).map splitWs

/-- `try_parse_input` (log_parser.rs lines 178–188). -/
def try_parse_input (s : List Char) : Option ℕ := do
  let rest ← stripPre "Input #".data (stripTag s)
  let tok ← (splitWs rest)[0]?
  let first ← (splitCh (· = ',') tok)[0]?
  parseU32 first

/-- `parse_time_str` (log_parser.rs lines 609–626): split on `:`, read the
components from rightmost (seconds) to leftmost (hours), accumulating
`seconds + 60·minutes + 3600·hours`; any component beyond the third from the
right is ignored, exactly as the Rust iterator stops after three `next`
calls. -/
def parse_time_str (s : List Char) : Option ℚ :=
  match (splitCh (· = ':') s).reverse with
  | [] => some 0
  | [sec] => parseDec sec
  | [sec, mn] => do
    let s' ← parseDec sec
    let m' ← parseDec mn
    pure (s' + m' * 60)
  | sec :: mn :: hrs :: _ => do
    let s' ← parseDec sec
    let m' ← parseDec mn
    let h' ← parseDec hrs
    pure (s' + m' * 60 + h' * 60 * 60)

/-- `try_parse_duration` (log_parser.rs lines 207–217). -/
def try_parse_duration (s : List Char) : Option ℚ := do
  let rest ← stripPre "Duration:".data (stripTag s)
  let first ← (splitCh (· = ',') (trimCl rest))[0]?
  parse_time_str first

/-- `try_parse_output` (log_parser.rs lines 234–256). -/
def try_parse_output (s : List Char) : Option FfmpegOutput := do
  let raw_log_message := s
  let rest ← stripPre "Output #".data (stripTag s)
  let tok ← (splitWs rest)[0]?
  let firstTok ← (splitCh (· = ',') tok)[0]?
  let index ← parseU32 firstTok
  let afterTo ← (splitSub rest " to '".data)[1]?
  let dest ← (splitCh (· = '\'') afterTo)[0]?
  pure { index := index, dest := dest, raw_log_message := raw_log_message }

/-- Modelled from the spec: the Delimiter-Aware Splitter (`CommaIter` of
`comma_iter.rs`, which is not under `src/`), per §4.3 — successive
comma-delimited segments of a line, where a comma is a split point only at
parenthesis-nesting depth zero. -/
def commaSegmentsAux : List Char → ℕ → List Char → List (List Char)
  | [], _, acc => [acc.reverse]
  | c :: rest, depth, acc =>
    if c = ',' ∧ depth = 0 then acc.reverse :: commaSegmentsAux rest 0 []
    else
      commaSegmentsAux rest
        (if c = '(' then depth + 1 else if c = ')' then depth - 1 else depth)
        (c :: acc)

/-- Modelled from the spec: the sequence of segments produced by the
Delimiter-Aware Splitter (§4.3). -/
def commaSegments (s : List Char) : List (List Char) := commaSegmentsAux s 0 []

/-- Rust `Iterator::step_by(2)`: every second element, starting with the
first. -/
def stepBy2 : List (List Char) → List (List Char)
  | [] => []
  | [x] => [x]
  | x :: _ :: rest => x :: stepBy2 rest

/-- `try_parse_audio_stream` (log_parser.rs lines 453–467), acting on the
comma segments remaining after the two consumed by `try_parse_stream`. -/
def try_parse_audio_stream (segs : List (List Char)) : Option StreamTypeSpecificData := do
  let s0 ← segs[0]?
  let tok ← (splitWs s0)[0]?
  let sample_rate ← parseU32 tok
  let s1 ← segs[1]?
  pure (.Audio { sample_rate := sample_rate, channels := trimCl s1 })

/-- `try_parse_video_stream` (log_parser.rs lines 470–501), acting on the
comma segments remaining after the two consumed by `try_parse_stream`. -/
def try_parse_video_stream (segs : List (List Char)) : Option StreamTypeSpecificData := do
  let s0 ← segs[0]?
  let pix_fmt ← (splitCh (fun c => c = ' ' ∨ c = '(') (trimCl s0))[0]?
  let s1 ← segs[1]?
  let dims ← (splitWs s1)[0]?
  let dimParts := splitCh (· = 'x') dims
  let w ← dimParts[0]?
  let width ← parseU32 w
  let h ← dimParts[1]?
  let height ← parseU32 h
  let fpsTok ← (segs.drop 2).findSome? (fun part =>
    if endsWithCl "fps".data (trimCl part) then (splitWs part)[0]? else none)
  let fps ← parseDec fpsTok
  pure (.Video { pix_fmt := pix_fmt, width := width, height := height, fps := fps })

/-- `try_parse_stream` (log_parser.rs lines 399–450). -/
def try_parse_stream (s : List Char) : Option FfmpegStream := do
  let raw_log_message := s
  let rest ← stripPre "Stream #".data (stripTag s)
  let segs := commaSegments rest
  let first ← segs[0]?
  let commaRest := segs.drop 1
  let colonParts := splitCh (· = ':') first
  let c0 ← colonParts[0]?
  let parent_index ← parseU32 c0
  let c1 ← colonParts[1]?
  let indicesAndMaybeLanguage := (stepBy2 (splitCh (fun c => c = '[' ∨ c = ']') c1)).flatten
  let parenParts := splitCh (· = '(') indicesAndMaybeLanguage
  let p0 ← parenParts[0]?
  let stream_index ← parseU32 (trimCl p0)
  let language := match parenParts[1]? with
    | none => []
    | some lang => dropTrailing ')' lang
  let c2 ← colonParts[2]?
  let stream_type := trimCl c2
  let c3 ← colonParts[3]?
  let format ← (splitCh (fun c => c = ' ' ∨ c = '(') (trimCl c3))[0]?
  let type_specific_data ←
    if stream_type = "Audio".data then try_parse_audio_stream commaRest
    else if stream_type = "Subtitle".data then pure .Subtitle
    else if stream_type = "Video".data then try_parse_video_stream commaRest
    else pure .Other
  pure { format := format, language := language, parent_index := parent_index,
         stream_index := stream_index, raw_log_message := raw_log_message,
         type_specific_data := type_specific_data }

/-- The token following the first occurrence of `key` in the progress line:
`string.split(key).nth(1)?.split_whitespace().next()?` as used throughout
`try_parse_progress`. -/
def keyTok (st key : List Char) : Option (List Char) := do
  let tail ← (splitSub st key)[1]?
  (splitWs tail)[0]?

/-- The size-token handling of `try_parse_progress` (log_parser.rs lines
544–556): trim, then strip a `KiB` suffix (FFmpeg v7.0 and later) or a `kB`
suffix (v6.0 and prior), or substitute `"0"` for a token ending in `N/A`. -/
def sizeSuffixHandling (tok : List Char) : Option (List Char) :=
  let t := trimCl tok
  match stripSuf "KiB".data t with
  | some r => some r
  | none =>
    match stripSuf "kB".data t with
    | some r => some r
    | none => if endsWithCl "N/A".data t then some "0".data else none

/-- The bitrate-field handling of `try_parse_progress` (log_parser.rs lines
563–571): trim, drop `kbits/s`, parse, defaulting to `0.0` for `N/A`. -/
def bitrateOfTok (tok : List Char) : ℚ :=
  (parseDec (dropAllSub (trimCl tok) "kbits/s".data)).getD 0

/-- The speed-field handling of `try_parse_progress` (log_parser.rs lines
572–579): strip a trailing `x` and parse, defaulting to `0.0` both for a
token without the suffix and for an unparsable remainder such as `N/A`. -/
def speedOfTok (tok : List Char) : ℚ :=
  match stripSuf "x".data tok with
  | some r => (parseDec r).getD 0
  | none => 0

/-- `try_parse_progress` (log_parser.rs lines 518–591). -/
def try_parse_progress (s : List Char) : Option FfmpegProgress := do
  let raw_log_message := s
  let st := stripTag s
  let frame ← parseU32 (← keyTok st "frame=".data)
  let fps ← parseDec (← keyTok st "fps=".data)
  let q ← parseDec (← keyTok st "q=".data)
  let size_kb ← parseU32 (← sizeSuffixHandling (← keyTok st "size=".data))
  let time ← keyTok st "time=".data
  let bitrate_kbps := bitrateOfTok (← keyTok st "bitrate=".data)
  let speed := speedOfTok (← keyTok st "speed=".data)
  pure { frame := frame, fps := fps, q := q, size_kb := size_kb, time := time,
         bitrate_kbps := bitrate_kbps, speed := speed, raw_log_message := raw_log_message }

/-! ### Line classifier and section tracker (`log_parser.rs` lines 11–115) -/

/-- `LogSection` (log_parser.rs lines 11–17). -/
inductive LogSection
  | Input (n : ℕ)
  | Output (n : ℕ)
  | StreamMapping
  | Other
deriving DecidableEq, Repr

/-- The parse chain of `parse_next_event` after the section-tracking block
(log_parser.rs lines 59–103), run with the possibly-updated section
`sec1`: returns the final section and either the produced event or the
`anyhow` error raised for a stream specification outside an Input/Output
section. -/
def parse_chain (sec1 : LogSection) (line : List Char) :
    LogSection × Except (List Char) FfmpegEvent :=
  let raw_log_message := line
  match try_parse_version line with
  | some version =>
    (sec1, .ok (.ParsedVersion { version := version, raw_log_message := raw_log_message }))
  | none =>
    match try_parse_configuration line with
    | some configuration =>
      (sec1, .ok (.ParsedConfiguration { configuration := configuration,
                                         raw_log_message := raw_log_message }))
    | none =>
      match try_parse_duration line with
      | some duration =>
        match sec1 with
        | .Input input_index =>
          (sec1, .ok (.ParsedDuration { input_index := input_index, duration := duration,
                                        raw_log_message := raw_log_message }))
        | _ => (sec1, .ok (.Log .Info line))
      | none =>
        if sec1 = .StreamMapping ∧ containsSub line "  Stream #".data then
          (sec1, .ok (.ParsedStreamMapping line))
        else
          match try_parse_stream line with
          | some stream =>
            match sec1 with
            | .Input _ => (sec1, .ok (.ParsedInputStream stream))
            | .Output _ => (sec1, .ok (.ParsedOutputStream stream))
            | _ => (sec1, .error ("Unexpected stream specification: ".data ++ line))
          | none =>
            match try_parse_progress line with
            | some progress => (.Other, .ok (.Progress progress))
            | none =>
              if containsSub line "[info]".data then (sec1, .ok (.Log .Info line))
              else if containsSub line "[warning]".data then (sec1, .ok (.Log .Warning line))
              else if containsSub line "[error]".data then (sec1, .ok (.Log .Error line))
              else if containsSub line "[fatal]".data then (sec1, .ok (.Log .Fatal line))
              else (sec1, .ok (.Log .Unknown line))

/-- One step of `FfmpegLogParser::parse_next_event` (log_parser.rs lines
36–104) on an already-delivered line: given the current section and the
line, produce the new section and either the event or the `anyhow` error.
The section-tracking block (lines 44–57) runs first: an input or output
header returns its event immediately, the "Stream mapping:" marker only
updates the section before the parse chain runs. -/
def parse_next_event_line (sec : LogSection) (line : List Char) :
    LogSection × Except (List Char) FfmpegEvent :=
  let raw_log_message := line
  match try_parse_input line with
  | some input_number =>
    (.Input input_number,
      .ok (.ParsedInput { index := input_number, duration := none,
                          raw_log_message := raw_log_message }))
  | none =>
    match try_parse_output line with
    | some output => (.Output output.index, .ok (.ParsedOutput output))
    | none =>
      let sec1 := if containsSub line "Stream mapping:".data then .StreamMapping else sec
      parse_chain sec1 line

/-- The error-to-event conversion of `FfmpegEventStream::poll_next`
(stream.rs lines 98–108): a parse error is surfaced to the consumer as a
single `FfmpegEvent::Error` carrying the error message. -/
def event_of_result : Except (List Char) FfmpegEvent → FfmpegEvent
  | .ok e => e
  | .error msg => .Error msg

/-- The event delivered to the consumer for one line: the classifier's
event, with a classification error surfaced as an Error event exactly as
`stream.rs` does. -/
def classify_event (sec : LogSection) (line : List Char) : FfmpegEvent :=
  event_of_result (parse_next_event_line sec line).2

/-- The section left behind after classifying one line. -/
def classify_section (sec : LogSection) (line : List Char) : LogSection :=
  (parse_next_event_line sec line).1

/-! ### Line delivery (`FfmpegLogParser::new`, log_parser.rs lines 106–114)

`FfmpegLogParser::new` wraps the byte source in
`tokio::io::BufReader::new(inner).lines()`, and `parse_next_event` pulls
lines from that `tokio::io::Lines` value.  `tokio`'s `next_line` is
documented external-library behaviour: each call reads up to and including
the next `\n` (or to end of stream), then strips one trailing `\n` and, if
present, one trailing `\r` before it; a bare `\r` inside the text is kept.
`tokioLines` is that behaviour applied to a whole byte stream. -/

/-- Strip one trailing `\r`, as `tokio::io::Lines::next_line` does after
removing the `\n` terminator. -/
def dropOneTrailingCr (s : List Char) : List Char :=
  match s.reverse with
  | '\r' :: rest => rest.reverse
  | _ => s

/-- The list of lines `tokio::io::Lines::next_line` delivers for a complete
byte stream: split at every `\n`; the text after the final `\n` forms a
last line only when nonempty (otherwise the next read returns no bytes and
the stream ends); each line then loses one trailing `\r`. -/
def tokioLines (s : List Char) : List (List Char) :=
  let segs := splitCh (· = '\n') s
  let segs1 := match segs.reverse with
    | [] :: front => front.reverse
    | _ => segs
  segs1.map dropOneTrailingCr

/-- Modelled from the spec: the Event Stream Adapter's line discipline
(§4.5, §6): a line is terminated by `\n`, `\r\n`, or a bare `\r`; text
after the last terminator forms a final line when nonempty. -/
def specLinesAux : List Char → List Char → List (List Char)
  | [], acc => if acc = [] then [] else [acc.reverse]
  | '\r' :: '\n' :: rest, acc => acc.reverse :: specLinesAux rest []
  | '\r' :: rest, acc => acc.reverse :: specLinesAux rest []
  | '\n' :: rest, acc => acc.reverse :: specLinesAux rest []
  | c :: rest, acc => specLinesAux rest (c :: acc)

/-- Modelled from the spec: the lines the adapter must deliver for a
complete byte stream (§4.5). -/
def specLines (s : List Char) : List (List Char) := specLinesAux s []

/-! ### Spec-side reference definitions used in refinement statements -/

/-- The section value after the side-effect updates of §4.1: recognizing an
input header, an output header, or the "Stream mapping:" marker; any other
line leaves the incoming section. -/
def sectionAfterHeaders (sec : LogSection) (line : List Char) : LogSection :=
  match try_parse_input line with
  | some n => .Input n
  | none =>
    match try_parse_output line with
    | some o => .Output o.index
    | none =>
      if containsSub line "Stream mapping:".data then .StreamMapping else sec

/-- The tail of the spec's classification chain (§4.1) from the duration
shape onward, evaluated with the already-updated section `sec'`: duration
(only interpreted inside an Input section, elsewhere a generic log line) →
stream-mapping entry (only in the StreamMapping section) → stream
specification (an input/output stream inside an Input/Output section,
surfaced as a single Error event elsewhere, §5/§7) → progress →
severity-tagged generic log → untagged Unknown-level generic log. -/
def chainSpecTail (sec' : LogSection) (line : List Char) : FfmpegEvent :=
  match try_parse_duration line with
  | some duration =>
    match sec' with
    | .Input input_index => .ParsedDuration ⟨input_index, duration, line⟩
    | _ => .Log .Info line
  | none =>
    if sec' = .StreamMapping ∧ containsSub line "  Stream #".data then
      .ParsedStreamMapping line
    else
      match try_parse_stream line with
      | some stream =>
        match sec' with
        | .Input _ => .ParsedInputStream stream
        | .Output _ => .ParsedOutputStream stream
        | _ => .Error ("Unexpected stream specification: ".data ++ line)
      | none =>
        match try_parse_progress line with
        | some progress => .Progress progress
        | none =>
          if containsSub line "[info]".data then .Log .Info line
          else if containsSub line "[warning]".data then .Log .Warning line
          else if containsSub line "[error]".data then .Log .Error line
          else if containsSub line "[fatal]".data then .Log .Fatal line
          else .Log .Unknown line

/-- The spec's full classification chain (§4.1), first match wins: version
line → configuration line → input header → output header → the tail of the
chain (`chainSpecTail`), with the section-dependent shapes reading the
section left by the header/marker side effects. -/
def chainSpecEvent (sec : LogSection) (line : List Char) : FfmpegEvent :=
  match try_parse_version line with
  | some version => .ParsedVersion ⟨version, line⟩
  | none =>
    match try_parse_configuration line with
    | some configuration => .ParsedConfiguration ⟨configuration, line⟩
    | none =>
      match try_parse_input line with
      | some n => .ParsedInput ⟨n, none, line⟩
      | none =>
        match try_parse_output line with
        | some o => .ParsedOutput o
        | none => chainSpecTail (sectionAfterHeaders sec line) line

/-- A batch of StreamMappingEntry events with the given payload texts. -/
def mappingEvents (ts : List (List Char)) : List FfmpegEvent :=
  ts.map .ParsedStreamMapping

/-- A batch of OutputStream events with the given stream payloads. -/
def outputStreamEvents (ss : List FfmpegStream) : List FfmpegEvent :=
  ss.map .ParsedOutputStream

/-- The manual time valuation of the claim: `seconds + 60·minutes +
3600·hours` over the colon-separated components listed leftmost-first. -/
def timeComponentsValue : List ℚ → ℚ
  | [s] => s
  | [m, s] => s + 60 * m
  | [h, m, s] => s + 60 * m + 3600 * h
  | _ => 0

/-! ### Helper lemmas about the aggregator -/

theorem feedEvents_append (m : FfmpegMetadata) (xs ys : List FfmpegEvent) :
    feedEvents m (xs ++ ys) =
      match feedEvents m xs with
      | .ok m' => feedEvents m' ys
      | r => r := by
  induction xs generalizing m with
  | nil => rfl
  | cons e es ih =>
    show feedEvents m (e :: (es ++ ys)) = _
    simp only [feedEvents]
    cases handle_event m e with
    | ok m' => exact ih m'
    | err msg => rfl
    | outOfBounds => rfl

theorem handle_mapping_step (k : ℕ) (t : List Char) :
    handle_event ⟨k, [], [], [], [], false⟩ (.ParsedStreamMapping t) =
      .ok ⟨k + 1, [], [], [], [], false⟩ := by
  simp [handle_event, FfmpegMetadata.is_completed]

theorem feed_mappings (ts : List (List Char)) (k : ℕ) :
    feedEvents ⟨k, [], [], [], [], false⟩ (mappingEvents ts) =
      .ok ⟨k + ts.length, [], [], [], [], false⟩ := by
  induction ts generalizing k with
  | nil => simp [mappingEvents, feedEvents]
  | cons t ts ih =>
    simp only [mappingEvents, List.map_cons, feedEvents, handle_mapping_step]
    have h := ih (k + 1)
    simp only [mappingEvents] at h
    rw [h]
    have : k + 1 + ts.length = k + (ts.length + 1) := by omega
    rw [this]
    simp

theorem handle_output_stream_step (k : ℕ) (os : List FfmpegStream) (s : FfmpegStream) :
    handle_event ⟨k, [], os, [], [], false⟩ (.ParsedOutputStream s) =
      .ok ⟨k, [], os ++ [s], [], [], decide (0 < k ∧ os.length + 1 = k)⟩ := by
  simp [handle_event, FfmpegMetadata.is_completed]

theorem feed_outputs_fill (ss : List FfmpegStream) (os : List FfmpegStream) (k : ℕ)
    (h : os.length + ss.length = k) (hne : ss ≠ []) :
    feedEvents ⟨k, [], os, [], [], false⟩ (outputStreamEvents ss) =
      .ok ⟨k, [], os ++ ss, [], [], true⟩ := by
  induction ss generalizing os with
  | nil => exact absurd rfl hne
  | cons s ss ih =>
    simp only [outputStreamEvents, List.map_cons, feedEvents, handle_output_stream_step]
    cases ss with
    | nil =>
      have hk : os.length + 1 = k := by simpa using h
      have hflag : decide (0 < k ∧ os.length + 1 = k) = true := by
        simp only [decide_eq_true_eq]
        omega
      rw [hflag]
      simp [outputStreamEvents, feedEvents]
    | cons s2 ss2 =>
      have hflag : decide (0 < k ∧ os.length + 1 = k) = false := by
        simp only [decide_eq_false_iff_not, not_and]
        intro _
        simp at h
        omega
      rw [hflag]
      have h' : (os ++ [s]).length + (s2 :: ss2).length = k := by
        simp at h ⊢
        omega
      have := ih (os ++ [s]) h' (by simp)
      simp only [outputStreamEvents] at this
      rw [this]
      simp

theorem feed_outputs_short (ss : List FfmpegStream) (os : List FfmpegStream) (k : ℕ)
    (h : os.length + ss.length < k) :
    feedEvents ⟨k, [], os, [], [], false⟩ (outputStreamEvents ss) =
      .ok ⟨k, [], os ++ ss, [], [], false⟩ := by
  induction ss generalizing os with
  | nil =>
    simp [outputStreamEvents, feedEvents]
  | cons s ss ih =>
    simp only [outputStreamEvents, List.map_cons, feedEvents, handle_output_stream_step]
    have hflag : decide (0 < k ∧ os.length + 1 = k) = false := by
      simp only [decide_eq_false_iff_not, not_and]
      intro _
      simp at h
      omega
    rw [hflag]
    have h' : (os ++ [s]).length + ss.length < k := by
      simp at h ⊢
      omega
    have := ih (os ++ [s]) h'
    simp only [outputStreamEvents] at this
    rw [this]
    simp

theorem handle_event_ok_completed (m : FfmpegMetadata) (e : FfmpegEvent)
    (m' : FfmpegMetadata) (h : handle_event m e = .ok m') :
    m'.completed = true ↔
      0 < m'.expected_output_streams ∧
        m'.output_streams.length = m'.expected_output_streams := by
  unfold handle_event at h
  cases hcm : m.is_completed with
  | true => rw [hcm] at h; simp at h
  | false =>
    rw [hcm] at h
    simp only [Bool.false_eq_true, if_false] at h
    cases e <;> (try split at h) <;>
      first
      | exact (HandleResult.noConfusion h)
      | (injection h with h'
         subst h'
         simp [decide_eq_true_eq, Bool.and_eq_true])

/-! ### Claim theorems -/

/-- C1 counterexample: on a fresh aggregate (no inputs registered) a
Duration event for input index 0 does not produce an error result: the call
hits the out-of-bounds vector index `inputs[0]`, i.e. it panics
(`HandleResult.outOfBounds`), which is not an `err` reported to the
caller. -/
theorem c1_counterexample :
    handle_event FfmpegMetadata.new (.ParsedDuration ⟨0, 5, []⟩) = .outOfBounds := by
  decide

/-- C1 amended: for a not-yet-completed aggregate and a Duration event whose
input index is not a registered input, the update call fails hard with the
out-of-bounds vector-indexing panic (which unwinds) rather than returning an
error result to the caller; the panic fires before any field write, so no
mutated aggregate is ever observed. -/
theorem c1_unregistered_duration_panics (m : FfmpegMetadata) (d : FfmpegDuration)
    (hc : m.completed = false) (hi : m.inputs.length ≤ d.input_index) :
    handle_event m (.ParsedDuration d) = .outOfBounds := by
  simp [handle_event, FfmpegMetadata.is_completed, hc, Nat.not_lt.mpr hi]

theorem c1_witness :
    handle_event FfmpegMetadata.new (.ParsedDuration ⟨3, 7, []⟩) = .outOfBounds :=
  c1_unregistered_duration_panics _ _ rfl (by decide)

/-- C2: the adapter's actual line delivery versus the specified one.
`FfmpegLogParser::new` (log_parser.rs lines 106–114) delegates to
`tokio::io::Lines`, which terminates lines at `\n` (absorbing a preceding
`\r`) but does not treat a bare `\r` as a terminator — although the doc
comment of `parse_next_event` (log_parser.rs lines 32–35) and the spec both
list the bare `\r` as a line ending.  On a progress-style chunk ended by a
bare `\r`, the code merges it with the following text into a single line,
where the specified discipline delivers two lines. -/
theorem c2_bare_cr_line_split :
    tokioLines "frame=  1\rframe=  2\n".data = ["frame=  1\rframe=  2".data] ∧
    specLines "frame=  1\rframe=  2\n".data = ["frame=  1".data, "frame=  2".data] ∧
    tokioLines "frame=  1\rframe=  2\n".data ≠
      specLines "frame=  1\rframe=  2\n".data :=
  ⟨by decide, by decide, by decide⟩

/-- C3: the aggregate is completed exactly when the expected-output-stream
counter is positive and the collected output-stream count equals it (first
conjunct, for every successful update); from a fresh aggregate, N ≥ 1
StreamMappingEntry events followed by exactly N OutputStream events end
completed (second conjunct), while N+1 StreamMappingEntry events followed by
only N OutputStream events end not completed (third conjunct). -/
theorem c3_completion_predicate :
    (∀ (m : FfmpegMetadata) (e : FfmpegEvent) (m' : FfmpegMetadata),
        handle_event m e = .ok m' →
          (m'.completed = true ↔
            0 < m'.expected_output_streams ∧
              m'.output_streams.length = m'.expected_output_streams)) ∧
    (∀ (ts : List (List Char)) (ss : List FfmpegStream), ts ≠ [] →
        ts.length = ss.length →
        feedEvents FfmpegMetadata.new (mappingEvents ts ++ outputStreamEvents ss) =
          .ok ⟨ts.length, [], ss, [], [], true⟩) ∧
    (∀ (ts : List (List Char)) (ss : List FfmpegStream),
        ts.length = ss.length + 1 →
        feedEvents FfmpegMetadata.new (mappingEvents ts ++ outputStreamEvents ss) =
          .ok ⟨ts.length, [], ss, [], [], false⟩) := by
  refine ⟨handle_event_ok_completed, ?_, ?_⟩
  · intro ts ss hne hlen
    rw [show FfmpegMetadata.new = (⟨0, [], [], [], [], false⟩ : FfmpegMetadata) from rfl]
    rw [feedEvents_append, feed_mappings]
    have hss : ss ≠ [] := by
      intro h
      subst h
      simp only [List.length_nil] at hlen
      exact hne (List.length_eq_zero.mp hlen)
    have h := feed_outputs_fill ss [] ts.length (by simpa using hlen.symm) hss
    simpa using h
  · intro ts ss hlen
    rw [show FfmpegMetadata.new = (⟨0, [], [], [], [], false⟩ : FfmpegMetadata) from rfl]
    rw [feedEvents_append, feed_mappings]
    have h := feed_outputs_short ss [] ts.length (by simp [hlen])
    simpa using h

theorem c3_witness :
    feedEvents FfmpegMetadata.new
        (mappingEvents [[]] ++ outputStreamEvents [⟨[], [], 0, 0, [], .Other⟩]) =
      .ok ⟨1, [], [⟨[], [], 0, 0, [], .Other⟩], [], [], true⟩ :=
  c3_completion_predicate.2.1 [[]] [⟨[], [], 0, 0, [], .Other⟩] (by decide) rfl

/-- C4: once the completion flag is set, any further `handle_event` call,
with any event whatsoever, returns the descriptive error: the `bail!` fires
before any field of the aggregate is touched, so no updated aggregate is
produced and every field is left unchanged. -/
theorem c4_completed_rejects_updates (m : FfmpegMetadata) (e : FfmpegEvent)
    (h : m.completed = true) :
    handle_event m e = .err "Metadata is already completed".data := by
  simp [handle_event, FfmpegMetadata.is_completed, h]

theorem c4_witness :
    handle_event ⟨0, [], [], [], [], true⟩ .LogEOF =
      .err "Metadata is already completed".data :=
  c4_completed_rejects_updates _ _ rfl

/-- C10: `duration()` reads `inputs[0]` unconditionally, so the access is
out of bounds — a panic, modelled by the outer `none`, rather than an
absent value — exactly when no input has been registered: a non-empty
inputs list is its unstated precondition. -/
theorem c10_duration_defined_iff_input (m : FfmpegMetadata) :
    m.duration = none ↔ m.inputs = [] := by
  cases h : m.inputs <;> simp [FfmpegMetadata.duration, h]

/-- C7: for a token of one to three colon-separated numeric components the
time parser returns `seconds + 60·minutes + 3600·hours`, the components
taken rightmost (seconds, possibly fractional) to leftmost (hours); a token
with non-numeric content, such as "N/A", yields no value. -/
theorem c7_parse_time_str :
    (∀ (s : List Char) (parts : List (List Char)) (qs : List ℚ),
        splitCh (· = ':') s = parts →
        1 ≤ parts.length → parts.length ≤ 3 →
        parts.mapM parseDec = some qs →
        parse_time_str s = some (timeComponentsValue qs)) ∧
    parse_time_str "N/A".data = none := by
  constructor
  · intro s parts qs hsplit h1 h3 hmap
    rcases parts with _ | ⟨a, _ | ⟨b, _ | ⟨c, _ | ⟨d, rest⟩⟩⟩⟩
    · simp at h1
    · cases ha : parseDec a with
      | none => simp [List.mapM_cons, List.mapM.loop, ha] at hmap
      | some qa =>
        simp [List.mapM_cons, List.mapM.loop, ha] at hmap
        subst hmap
        unfold parse_time_str
        rw [hsplit]
        simp [ha, timeComponentsValue]
    · cases ha : parseDec a with
      | none =>
        rw [List.mapM_cons] at hmap
        simp [ha] at hmap
      | some qa =>
        cases hb : parseDec b with
        | none => simp [List.mapM_cons, List.mapM.loop, ha, hb] at hmap
        | some qb =>
          simp [List.mapM_cons, List.mapM.loop, ha, hb] at hmap
          subst hmap
          unfold parse_time_str
          rw [hsplit]
          simp [ha, hb, timeComponentsValue, mul_comm]
    · cases ha : parseDec a with
      | none => simp [List.mapM_cons, List.mapM.loop, ha] at hmap
      | some qa =>
        cases hb : parseDec b with
        | none => simp [List.mapM_cons, List.mapM.loop, ha, hb] at hmap
        | some qb =>
          cases hc : parseDec c with
          | none => simp [List.mapM_cons, List.mapM.loop, ha, hb, hc] at hmap
          | some qc =>
            simp [List.mapM_cons, List.mapM.loop, ha, hb, hc] at hmap
            subst hmap
            unfold parse_time_str
            rw [hsplit]
            simp only [List.reverse_cons, List.reverse_nil, List.nil_append,
              List.cons_append, ha, hb, hc, Option.bind_eq_bind, Option.some_bind,
              timeComponentsValue]
            congr 1
            ring
    · simp at h3
  · decide

theorem c7_witness : parse_time_str "1:01:01.5".data = some (7323 / 2) := by
  have h := c7_parse_time_str.1 "1:01:01.5".data
      ["1".data, "01".data, "01.5".data] [1, 1, 3 / 2]
      (by decide) (by decide) (by decide) (by with_unfolding_all rfl)
  rw [h]
  norm_num [timeComponentsValue]

/-- C8: the stream-specification extractor maps the documented output-stream
line to parent index 1, stream index 5, language "eng", format "h264", and a
video payload with pixel format "yuv444p", width 320, height 240 and fps 25;
the comma inside the parenthesized "(tv, progressive)" does not split the
pixel-format field. -/
theorem c8_stream_extraction :
    try_parse_stream "Stream #1:5(eng): Video: h264 (avc1 / 0x31637661), yuv444p(tv, progressive), 320x240 [SAR 1:1 DAR 4:3], q=2-31, 25 fps, 12800 tbn".data =
      some { format := "h264".data
             language := "eng".data
             parent_index := 1
             stream_index := 5
             raw_log_message := "Stream #1:5(eng): Video: h264 (avc1 / 0x31637661), yuv444p(tv, progressive), 320x240 [SAR 1:1 DAR 4:3], q=2-31, 25 fps, 12800 tbn".data
             type_specific_data := .Video { pix_fmt := "yuv444p".data
                                            width := 320
                                            height := 240
                                            fps := 25 } } := by
  with_unfolding_all rfl

/-- C9: the progress extractor maps the documented progress line to frame
1996, fps 1984, q = −1, size 372 KB, the verbatim time string
"00:01:19.72", bitrate 38.2 kbps and speed 79.2 (first conjunct); the same
line with a `KiB` size suffix parses `size_kb` identically (second
conjunct); and a size token of `N/A` yields `size_kb = 0` (third
conjunct). -/
theorem c9_progress_extraction :
    try_parse_progress "frame= 1996 fps=1984 q=-1.0 Lsize= 372kB time=00:01:19.72 bitrate= 38.2kbits/s speed=79.2x".data =
      some { frame := 1996, fps := 1984, q := -1, size_kb := 372,
             time := "00:01:19.72".data, bitrate_kbps := 191 / 5, speed := 396 / 5,
             raw_log_message := "frame= 1996 fps=1984 q=-1.0 Lsize= 372kB time=00:01:19.72 bitrate= 38.2kbits/s speed=79.2x".data } ∧
    try_parse_progress "frame= 1996 fps=1984 q=-1.0 Lsize= 372KiB time=00:01:19.72 bitrate= 38.2kbits/s speed=79.2x".data =
      some { frame := 1996, fps := 1984, q := -1, size_kb := 372,
             time := "00:01:19.72".data, bitrate_kbps := 191 / 5, speed := 396 / 5,
             raw_log_message := "frame= 1996 fps=1984 q=-1.0 Lsize= 372KiB time=00:01:19.72 bitrate= 38.2kbits/s speed=79.2x".data } ∧
    try_parse_progress "frame= 1996 fps=1984 q=-1.0 Lsize=N/A time=00:01:19.72 bitrate= 38.2kbits/s speed=79.2x".data =
      some { frame := 1996, fps := 1984, q := -1, size_kb := 0,
             time := "00:01:19.72".data, bitrate_kbps := 191 / 5, speed := 396 / 5,
             raw_log_message := "frame= 1996 fps=1984 q=-1.0 Lsize=N/A time=00:01:19.72 bitrate= 38.2kbits/s speed=79.2x".data } :=
  ⟨by with_unfolding_all rfl, by with_unfolding_all rfl, by with_unfolding_all rfl⟩

/-- Helper for C6: every branch of the parse chain except a successful
progress parse leaves the section it was entered with. -/
theorem parse_chain_section (sec1 : LogSection) (line : List Char)
    (hp : try_parse_progress line = none) :
    (parse_chain sec1 line).1 = sec1 := by
  unfold parse_chain
  cases hv : try_parse_version line with
  | some v => rfl
  | none =>
    cases hc : try_parse_configuration line with
    | some c => rfl
    | none =>
      cases hd : try_parse_duration line with
      | some d => cases sec1 <;> rfl
      | none =>
        by_cases hm : sec1 = LogSection.StreamMapping ∧
            containsSub line "  Stream #".data = true
        · rw [if_pos hm]
        · rw [if_neg hm]
          cases hs : try_parse_stream line with
          | some st => cases sec1 <;> rfl
          | none =>
            rw [hp]
            split_ifs <;> rfl

/-- C6 counterexample: a progress line is not an input header, not an
output header and not the "Stream mapping:" marker, yet classifying it in
section `Input 0` moves the section to `Other` (log_parser.rs line 91). -/
theorem c6_counterexample :
    try_parse_input "frame= 1 fps=0.0 q=0.0 size= 0kB time=00:00:00.00 bitrate= 0.0kbits/s speed=1x".data = none ∧
    try_parse_output "frame= 1 fps=0.0 q=0.0 size= 0kB time=00:00:00.00 bitrate= 0.0kbits/s speed=1x".data = none ∧
    containsSub "frame= 1 fps=0.0 q=0.0 size= 0kB time=00:00:00.00 bitrate= 0.0kbits/s speed=1x".data "Stream mapping:".data = false ∧
    classify_section (.Input 0) "frame= 1 fps=0.0 q=0.0 size= 0kB time=00:00:00.00 bitrate= 0.0kbits/s speed=1x".data = .Other :=
  ⟨by decide, by decide, by decide, by with_unfolding_all rfl⟩

/-- C6 amended: the classifier's section state is changed only by an input
header, an output header, the "Stream mapping:" marker, or a progress line
(which resets the section to Other); classifying any other line leaves the
section unchanged. -/
theorem c6_section_frame (sec : LogSection) (line : List Char)
    (h1 : try_parse_input line = none)
    (h2 : try_parse_output line = none)
    (h3 : containsSub line "Stream mapping:".data = false)
    (h4 : try_parse_progress line = none) :
    classify_section sec line = sec := by
  unfold classify_section parse_next_event_line
  simp only [h1, h2, h3, Bool.false_eq_true, if_false]
  exact parse_chain_section sec line h4

theorem c6_witness : classify_section (.Input 0) "hello".data = .Input 0 :=
  c6_section_frame _ _ (by decide) (by decide) (by decide) (by decide)

/-- A successful `stripPre` against a pattern starting with `a` means the
string itself starts with `a`. -/
theorem stripPre_cons_head {a : Char} {p s r : List Char}
    (h : stripPre (a :: p) s = some r) : ∃ t, s = a :: t := by
  cases s with
  | nil => simp [stripPre] at h
  | cons c cs =>
    refine ⟨cs, ?_⟩
    by_cases hac : a = c
    · rw [hac]
    · simp [stripPre, hac] at h

/-- A line whose tag-stripped text does not start with `f` is not a version
line. -/
theorem try_parse_version_none (line : List Char) (c : Char) (t : List Char)
    (hst : stripTag line = c :: t) (hc : ¬ c = 'f') :
    try_parse_version line = none := by
  unfold try_parse_version
  rw [hst, show "ffmpeg version ".data = 'f' :: "fmpeg version ".data from rfl]
  simp [stripPre, (show ¬ ('f' = c) from fun h => hc h.symm)]

/-- A line whose tag-stripped text does not start with `c` is not a
configuration line. -/
theorem try_parse_configuration_none (line : List Char) (ch : Char) (t : List Char)
    (hst : stripTag line = ch :: t) (hc : ¬ ch = 'c') :
    try_parse_configuration line = none := by
  unfold try_parse_configuration
  rw [hst, show "configuration: ".data = 'c' :: "onfiguration: ".data from rfl]
  simp [stripPre, (show ¬ ('c' = ch) from fun h => hc h.symm)]

/-- A recognized input header starts (after tag stripping) with `I`. -/
theorem try_parse_input_head (line : List Char) (n : ℕ)
    (h : try_parse_input line = some n) : ∃ t, stripTag line = 'I' :: t := by
  cases hsp : stripPre "Input #".data (stripTag line) with
  | none =>
    unfold try_parse_input at h
    rw [hsp] at h
    simp at h
  | some r => exact stripPre_cons_head hsp

/-- A recognized output header starts (after tag stripping) with `O`. -/
theorem try_parse_output_head (line : List Char) (o : FfmpegOutput)
    (h : try_parse_output line = some o) : ∃ t, stripTag line = 'O' :: t := by
  cases hsp : stripPre "Output #".data (stripTag line) with
  | none =>
    unfold try_parse_output at h
    rw [hsp] at h
    simp at h
  | some r => exact stripPre_cons_head hsp

/-- The code's parse chain agrees, event-wise, with the spec chain's tail
prefixed by the version and configuration shapes. -/
theorem chain_tail_eq (s1 : LogSection) (line : List Char) :
    event_of_result (parse_chain s1 line).2 =
      (match try_parse_version line with
       | some version => FfmpegEvent.ParsedVersion ⟨version, line⟩
       | none =>
         match try_parse_configuration line with
         | some configuration => FfmpegEvent.ParsedConfiguration ⟨configuration, line⟩
         | none => chainSpecTail s1 line) := by
  unfold parse_chain chainSpecTail
  cases hv : try_parse_version line with
  | some v => rfl
  | none =>
    cases hc : try_parse_configuration line with
    | some c => rfl
    | none =>
      cases hd : try_parse_duration line with
      | some d => cases s1 <;> rfl
      | none =>
        by_cases hm : s1 = LogSection.StreamMapping ∧
            containsSub line "  Stream #".data = true
        · rw [if_pos hm, if_pos hm]
          rfl
        · rw [if_neg hm, if_neg hm]
          cases hs : try_parse_stream line with
          | some st => cases s1 <;> rfl
          | none =>
            cases hp : try_parse_progress line with
            | some p => rfl
            | none => split_ifs <;> rfl

/-- C5: for every section state and every line, the classifier produces
exactly one event — the value of the total function `classify_event`, with
a classification error surfaced as a single Error event exactly as the
event stream does — and that event is the one chosen by the first matching
shape of the spec's precedence chain (`chainSpecEvent`): version →
configuration → input header → output header → duration (only inside an
Input section, elsewhere a generic log line) → stream-mapping entry (only
in the StreamMapping section) → stream specification → progress →
severity-tagged generic log → untagged Unknown-level generic log. -/
theorem c5_precedence_chain (sec : LogSection) (line : List Char) :
    classify_event sec line = chainSpecEvent sec line := by
  unfold classify_event parse_next_event_line chainSpecEvent sectionAfterHeaders
  cases hi : try_parse_input line with
  | some n =>
    obtain ⟨t, ht⟩ := try_parse_input_head line n hi
    rw [try_parse_version_none line 'I' t ht (by decide),
      try_parse_configuration_none line 'I' t ht (by decide)]
    rfl
  | none =>
    cases ho : try_parse_output line with
    | some o =>
      obtain ⟨t, ht⟩ := try_parse_output_head line o ho
      rw [try_parse_version_none line 'O' t ht (by decide),
        try_parse_configuration_none line 'O' t ht (by decide)]
      rfl
    | none => exact chain_tail_eq _ line
